import Mathlib

set_option maxRecDepth 100000

/-!
Verification of the resource-naming and Kubernetes-selector logic of the
cloud-forensics utilities library.

Python strings are modelled as `List Char` (sequences of Unicode code points);
byte strings as `List Nat` with every element below 256.  All definitions are
translated from the source files `libcloudforensics/aws.py` and
`libcloudforensics/providers/kubernetes/selector.py`.
-/

/-! ## CRC-32 (model of `binascii.crc32`)

`binascii.crc32` is the standard zlib CRC-32: reflected polynomial
`0xEDB88320`, initial value `0xFFFFFFFF`, final XOR `0xFFFFFFFF`,
processing input bytes least-significant-bit first. -/

/-- One shift step of the reflected CRC-32: shift right, conditionally XOR
the reflected polynomial `0xEDB88320`. -/
def crc32Round (c : Nat) : Nat :=
  if c % 2 = 1 then Nat.xor (c / 2) 0xEDB88320 else c / 2

/-- Iterate `crc32Round` `n` times. -/
def crc32Rounds : Nat → Nat → Nat
  | 0, c => c
  | n + 1, c => crc32Rounds n (crc32Round c)

/-- Absorb one input byte into the running CRC. -/
def crc32Update (c b : Nat) : Nat :=
  crc32Rounds 8 (Nat.xor c b)

/-- CRC-32 of a byte sequence, as computed by `binascii.crc32(bs)` for a
Python 3 `bytes` object (an unsigned 32-bit value). -/
def crc32Bytes (bs : List Nat) : Nat :=
  Nat.xor (bs.foldl crc32Update 0xFFFFFFFF) 0xFFFFFFFF

/-! ## UTF-8 encoding (model of `str.encode()`) -/

/-- UTF-8 bytes of a single code point. -/
def utf8Char (n : Nat) : List Nat :=
  if n < 0x80 then [n]
  else if n < 0x800 then
    [0xC0 + n / 0x40, 0x80 + n % 0x40]
  else if n < 0x10000 then
    [0xE0 + n / 0x1000, 0x80 + n / 0x40 % 0x40, 0x80 + n % 0x40]
  else
    [0xF0 + n / 0x40000, 0x80 + n / 0x1000 % 0x40,
     0x80 + n / 0x40 % 0x40, 0x80 + n % 0x40]

/-- UTF-8 bytes of a string, as computed by `s.encode()` in Python. -/
def utf8Encode (s : List Char) : List Nat :=
  (s.map (fun c => utf8Char c.toNat)).flatten

/-! ## Lowercase hexadecimal rendering (model of `'{0:08x}'.format`) -/

/-- The sixteen lowercase hexadecimal digit characters. -/
def hexDigitChars : List Char := "0123456789abcdef".toList

/-- The lowercase hexadecimal digit for a value below 16. -/
def hexDigit (n : Nat) : Char := hexDigitChars.getD n '0'

/-- `toHex w v` renders `v` as exactly `w` lowercase hexadecimal digits,
most significant first.  For `v < 16 ^ w` this is Python's
zero-padded format `'{0:0wx}'.format(v)`. -/
def toHex : Nat → Nat → List Char
  | 0, _ => []
  | w + 1, v => toHex w (v / 16) ++ [hexDigit (v % 16)]

/-! ## `AwsAccount._GenerateVolumeName` (aws.py lines 312-345) -/

/-- The 8-hex-digit checksum of `aws.py` lines 329-331:
`'{0:08x}'.format(binascii.crc32((user_id + volume_id).encode()) & 0xffffffff)`. -/
def volumeCrcHex (userId volId : List Char) : List Char :=
  toHex 8 (Nat.land (crc32Bytes (utf8Encode (userId ++ volId))) 0xFFFFFFFF)

/-- The literal `'-copy'` suffix. -/
def copySuffix : List Char := "-copy".toList

/-- Model of `AwsAccount._GenerateVolumeName` (aws.py lines 312-345).
`snapName` is `snapshot.name`, `volId` is `snapshot.volume.volume_id`,
`userId` is the caller identity `UserId`, and `pfx` is
`volume_name_prefix` (`none` models Python `None`; `some []` models `''`;
Python's `if volume_name_prefix:` is falsy in both of those cases). -/
def GenerateVolumeName (snapName volId userId : List Char)
    (pfx : Option (List Char)) : List Char :=
  let crcHex := volumeCrcHex userId volId
  let truncAt := 255 - crcHex.length - copySuffix.length - 1
  let p := pfx.getD []
  if p = [] then
    snapName.take truncAt ++ ['-'] ++ crcHex ++ copySuffix
  else
    let p1 := p ++ ['-']
    let p2 := if truncAt < p1.length then p1.take truncAt else p1
    let t2 := truncAt - p2.length
    p2 ++ snapName.take t2 ++ ['-'] ++ crcHex ++ copySuffix

/-- The prefix segment actually produced by `_GenerateVolumeName`: the
first 241 characters of `prefix + '-'` when a non-empty prefix is
supplied, and empty otherwise. -/
def volumePrefixSeg (pfx : Option (List Char)) : List Char :=
  let p := pfx.getD []
  if p = [] then [] else (p ++ ['-']).take 241

/-- The shape that claim C1 asserts for every generated name: some prefix
segment `P` (empty when no prefix is supplied, otherwise non-empty and
ending in `'-'`), followed by the display name truncated to the remaining
budget `241 - P.length`, then `'-'`, the checksum, and `'-copy'`. -/
def c1ClaimedShape (snapName volId userId : List Char)
    (pfx : Option (List Char)) : Prop :=
  ∃ P : List Char,
    (pfx.getD [] = [] → P = []) ∧
    (pfx.getD [] ≠ [] → P ≠ [] ∧ P.getLast? = some '-') ∧
    GenerateVolumeName snapName volId userId pfx =
      P ++ snapName.take (241 - P.length) ++ ['-'] ++
        volumeCrcHex userId volId ++ copySuffix

/-! ## The name step of `AwsAccount.CreateVolumeFromSnapshot`
(aws.py lines 31 and 285-291) -/

/-- Model of Python `re.match(REGEX_TAG_VALUE, s)` being truthy, where
`REGEX_TAG_VALUE = re.compile('^.{1,255}$')`: `.` matches any character
except `'\n'`, and `$` matches at the end of the string or just before a
single trailing `'\n'`.  So the regex matches iff, after discarding one
trailing newline (if any), the string has between 1 and 255 characters,
none of which is a newline. -/
def regexTagValueCore (s : List Char) : List Char :=
  if s.getLast? = some '\n' then s.dropLast else s

def regexTagValueMatch (s : List Char) : Bool :=
  decide (1 ≤ (regexTagValueCore s).length) &&
    decide ((regexTagValueCore s).length ≤ 255) &&
    decide ('\n' ∉ regexTagValueCore s)

/-- The volume name composed by `CreateVolumeFromSnapshot` (aws.py lines
285-287): the caller-supplied `volume_name` when truthy (non-empty),
otherwise `_GenerateVolumeName(snapshot, volume_name_prefix)`.  The
`volume_name_prefix` parameter defaults to `''` in the source, so it is
modelled as an always-present string. -/
def ComposedVolumeName (snapName volId userId volumeName pfxStr :
    List Char) : List Char :=
  if volumeName = [] then GenerateVolumeName snapName volId userId (some pfxStr)
  else volumeName

/-- Model of the pure name phase of `CreateVolumeFromSnapshot` (aws.py
lines 285-291): compose the name, then raise `ValueError` (here
`Except.error` carrying the offending name) when the name does not match
`REGEX_TAG_VALUE`, and otherwise proceed with the name.  No cloud call
that creates state occurs before this check. -/
def CreateVolumeNameStep (snapName volId userId volumeName pfxStr :
    List Char) : Except (List Char) (List Char) :=
  let name := ComposedVolumeName snapName volId userId volumeName pfxStr
  if regexTagValueMatch name then Except.ok name else Except.error name

/-! ## `AwsAccount.GetVolume` (aws.py lines 240-266)

The two private lookups `__GetVolumeById` and `__GetVolumeByName` either
return a volume or raise `RuntimeError`; they are modelled as `Except`
values supplied by the environment.  `GetVolume` tries the lookup by id,
falls back to the lookup by name when the first failed, and re-raises a
`RuntimeError` built from the last caught exception `e` when both fail;
the by-name lookup is never consulted when the by-id lookup succeeds. -/

/-- Model of `AwsAccount.GetVolume` (aws.py lines 254-266). -/
def GetVolume {E V : Type} (byId byName : Except E V) : Except E V :=
  match byId with
  | Except.ok v => Except.ok v
  | Except.error _ =>
    match byName with
    | Except.ok v => Except.ok v
    | Except.error e2 => Except.error e2

/-! ## `K8sSelector` (providers/kubernetes/selector.py lines 37-112)

The abstract class hierarchy `Component` → `FieldComponent` /
`LabelComponent` → `Name` / `Node` / `Running` / `Label` is a closed set
of four concrete variants, modelled as an inductive type. -/

/-- The four concrete selector components of `K8sSelector`. -/
inductive Component : Type
  | Name (name : List Char)
  | Node (node : List Char)
  | Running
  | Label (key value : List Char)
deriving DecidableEq

/-- The key `'field_selector'` contributed by `FieldComponent.Keyword`. -/
def fieldSelectorKey : List Char := "field_selector".toList

/-- The key `'label_selector'` contributed by `LabelComponent.Keyword`. -/
def labelSelectorKey : List Char := "label_selector".toList

/-- The `Keyword` property of each component: `Name`, `Node` and `Running`
derive from `FieldComponent`, `Label` from `LabelComponent`. -/
def componentKeyword : Component → List Char
  | Component.Name _ => fieldSelectorKey
  | Component.Node _ => fieldSelectorKey
  | Component.Running => fieldSelectorKey
  | Component.Label _ _ => labelSelectorKey

/-- The `ToString` method of each component (selector.py lines 64-97). -/
def componentToString : Component → List Char
  | Component.Name n => "metadata.name=".toList ++ n
  | Component.Node n => "spec.nodeName=".toList ++ n
  | Component.Running => "status.phase!=Failed,status.phase!=Succeeded".toList
  | Component.Label k v => k ++ "=".toList ++ v

/-- Model of Python `','.join(vs)`. -/
def joinComma : List (List Char) → List Char
  | [] => []
  | [f] => f
  | f :: fs => f ++ [','] ++ joinComma fs

/-- Helper for `dedupKeys`: keep the keys not already seen, in order,
remembering the ones kept so far. -/
def dedupKeysAux (seen : List (List Char)) :
    List (List Char) → List (List Char)
  | [] => []
  | k :: ks =>
    if k ∈ seen then dedupKeysAux seen ks
    else k :: dedupKeysAux (k :: seen) ks

/-- First-occurrence deduplication: the key order in which a Python
`defaultdict` (and the dict comprehension built from it) iterates its
keys is the order in which each key was first inserted. -/
def dedupKeys (l : List (List Char)) : List (List Char) :=
  dedupKeysAux [] l

/-- The fragments contributed to key `k`, in the original component
order. -/
def kindFragments (cs : List Component) (k : List Char) :
    List (List Char) :=
  (cs.filter (fun c => decide (componentKeyword c = k))).map componentToString

/-- Model of `K8sSelector.ToKeywords` (selector.py lines 102-107): the
loop appends each component's `ToString()` to `keywords[component.Keyword]`
(a `defaultdict(list)`, so keys appear in first-occurrence order), and the
comprehension `{k: ','.join(vs) for k, vs in keywords.items()}` joins each
key's fragments with `','`.  The resulting mapping is modelled as an
association list in key-insertion order. -/
def ToKeywords (cs : List Component) : List (List Char × List Char) :=
  (dedupKeys (cs.map componentKeyword)).map
    (fun k => (k, joinComma (kindFragments cs k)))

/-- Model of `K8sSelector.FromDict` (selector.py lines 109-112): the dict
is modelled as an association list in iteration order (Python dicts
iterate in insertion order and have distinct keys); `map(lambda k:
K8sSelector.Label(k, labels[k]), labels)` builds one `Label` component
per key, looking the value up by key. -/
def FromDict (labels : List (List Char × List Char)) : List Component :=
  (labels.map Prod.fst).map
    (fun k => Component.Label k ((labels.lookup k).getD []))

/-- Model of Python `s.split(',')`: always returns at least one piece;
`''.split(',') == ['']`. -/
def splitComma : List Char → List (List Char)
  | [] => [[]]
  | c :: rest =>
    match splitComma rest with
    | [] => [[]]
    | g :: gs => if c = ',' then [] :: g :: gs else (c :: g) :: gs

/-- The label mapping `{"app": "web", "tier": "frontend"}` used by the
specification's `FromLabelMap` example. -/
def sampleLabels : List (List Char × List Char) :=
  [("app".toList, "web".toList), ("tier".toList, "frontend".toList)]

/-! ## Helper lemmas about the name generator -/

theorem toHex_length : ∀ (w v : Nat), (toHex w v).length = w
  | 0, _ => rfl
  | w + 1, v => by
    simp [toHex, toHex_length w]

theorem hexDigit_mem (n : Nat) (h : n < 16) : hexDigit n ∈ hexDigitChars := by
  interval_cases n <;> decide

theorem mem_toHex : ∀ (w v : Nat), ∀ c ∈ toHex w v, c ∈ hexDigitChars := by
  intro w
  induction w with
  | zero => intro v c hc; simp [toHex] at hc
  | succ w ih =>
    intro v c hc
    simp only [toHex, List.mem_append, List.mem_singleton] at hc
    rcases hc with hc | hc
    · exact ih _ c hc
    · subst hc
      exact hexDigit_mem _ (Nat.mod_lt _ (by omega))

theorem volumeCrcHex_length (userId volId : List Char) :
    (volumeCrcHex userId volId).length = 8 :=
  toHex_length 8 _

theorem volumePrefixSeg_length_le (p : Option (List Char)) :
    (volumePrefixSeg p).length ≤ 241 := by
  unfold volumePrefixSeg
  by_cases hp : p.getD [] = [] <;> simp [hp, List.length_take]

/-- The central unfolding equation for `_GenerateVolumeName`: every
generated name is the produced prefix segment, then the display name
truncated to the remaining budget, then `'-'`, the checksum and
`'-copy'`. -/
theorem GenerateVolumeName_eq (s u a : List Char) (p : Option (List Char)) :
    GenerateVolumeName s u a p =
      volumePrefixSeg p ++ s.take (241 - (volumePrefixSeg p).length) ++
        ['-'] ++ volumeCrcHex a u ++ copySuffix := by
  have h8 : (volumeCrcHex a u).length = 8 := volumeCrcHex_length a u
  have h5 : copySuffix.length = 5 := rfl
  unfold GenerateVolumeName volumePrefixSeg
  simp only [h8, h5]
  by_cases hp : p.getD [] = []
  · simp [hp]
  · simp only [hp, if_neg, ite_false]
    by_cases hlen : 255 - 8 - 5 - 1 < (p.getD [] ++ ['-']).length
    · simp only [if_pos hlen]
    · simp only [if_neg hlen]
      push_neg at hlen
      rw [List.take_of_length_le
        (show (p.getD [] ++ ['-']).length ≤ 241 by omega)]

/-! ## Claim theorems for the name generator -/

/-- C2: for every source display name, source unique id, account identity
string and optional prefix (including display names and prefixes longer
than 255 characters), the generated name is non-empty and has length at
most 255. -/
theorem c2_name_length_bounds (s u a : List Char) (p : Option (List Char)) :
    0 < (GenerateVolumeName s u a p).length ∧
    (GenerateVolumeName s u a p).length ≤ 255 := by
  rw [GenerateVolumeName_eq]
  have h8 := volumeCrcHex_length a u
  have h5 : copySuffix.length = 5 := rfl
  have hP := volumePrefixSeg_length_le p
  simp only [List.length_append, List.length_take, List.length_cons,
    List.length_nil, h8, h5]
  omega

/-- C1 counterexample: with a 241-character prefix of `'a'`s, the
generated name has no decomposition whose prefix segment ends in `'-'`:
the appended separator is cut off by the prefix truncation, so the claimed
shape fails. -/
theorem c1_counterexample :
    ¬ c1ClaimedShape [] ['v'] ['u'] (some (List.replicate 241 'a')) := by
  rintro ⟨P, -, hdash, heq⟩
  have hgen : GenerateVolumeName [] ['v'] ['u']
      (some (List.replicate 241 'a')) =
      List.replicate 241 'a' ++
        (['-'] ++ (volumeCrcHex ['u'] ['v'] ++ copySuffix)) := by
    rw [GenerateVolumeName_eq]
    have hseg : volumePrefixSeg (some (List.replicate 241 'a')) =
        List.replicate 241 'a' := by
      unfold volumePrefixSeg
      rw [Option.getD_some]
      rw [if_neg (by simp)]
      rw [List.take_append_of_le_length (by simp)]
      simp
    rw [hseg]
    simp
  simp only [List.take_nil, List.append_nil, List.nil_append,
    List.append_assoc] at heq hgen
  have hPR : P = List.replicate 241 'a' := by
    have hcomb := heq.symm.trans hgen
    exact (List.append_left_inj _).mp hcomb
  have hne : (some (List.replicate 241 'a')).getD ([] : List Char) ≠ [] := by
    simp
  have hlast := (hdash hne).2
  rw [hPR] at hlast
  have : List.getLast? (List.replicate 241 'a') = some 'a' := by decide
  rw [this] at hlast
  simp at hlast

/-- C1 (amended): the generated name is
`prefixSeg ++ truncatedDisplayName ++ '-' ++ checksum ++ '-copy'`, where
the prefix segment is the first 241 characters of `prefix + '-'` (so it
ends in `'-'` whenever the prefix has at most 240 characters, but a
longer prefix is cut before its separator), the display name keeps its
left-most characters up to the remaining budget, and the checksum is 8
lowercase hexadecimal digits of the CRC-32 of the UTF-8 bytes of the
account identity concatenated with the source unique id. -/
theorem c1_generated_name_shape_amended (s u a q : List Char)
    (hq : q ≠ []) :
    GenerateVolumeName s u a (some q) =
      (q ++ ['-']).take 241 ++
        s.take (241 - ((q ++ ['-']).take 241).length) ++ ['-'] ++
        volumeCrcHex a u ++ copySuffix ∧
    GenerateVolumeName s u a none =
      s.take 241 ++ ['-'] ++ volumeCrcHex a u ++ copySuffix ∧
    (volumeCrcHex a u).length = 8 ∧
    (∀ c ∈ volumeCrcHex a u, c ∈ hexDigitChars) ∧
    (q.length ≤ 240 → ((q ++ ['-']).take 241).getLast? = some '-') := by
  have hseg : volumePrefixSeg (some q) = (q ++ ['-']).take 241 := by
    unfold volumePrefixSeg
    rw [Option.getD_some, if_neg hq]
  refine ⟨?_, ?_, volumeCrcHex_length a u, mem_toHex 8 _, ?_⟩
  · rw [GenerateVolumeName_eq, hseg]
  · rw [GenerateVolumeName_eq]
    have : volumePrefixSeg none = [] := rfl
    rw [this]
    simp
  · intro hlen
    rw [List.take_of_length_le (by simp; omega)]
    simp

/-- C1 amended witness: a concrete instantiation with a short prefix. -/
theorem c1_amended_witness :
    GenerateVolumeName "vol".toList "id".toList "acct".toList
        (some "pre".toList) =
      ("pre".toList ++ ['-']).take 241 ++
        "vol".toList.take (241 - (("pre".toList ++ ['-']).take 241).length) ++
        ['-'] ++ volumeCrcHex "acct".toList "id".toList ++ copySuffix ∧
    (("pre".toList ++ ['-']).take 241).getLast? = some '-' := by
  have h := c1_generated_name_shape_amended "vol".toList "id".toList
    "acct".toList "pre".toList (by decide)
  exact ⟨h.1, h.2.2.2.2 (by decide)⟩

/-- C4: a prefix at least as long as the whole 241-character budget is
truncated to its left-most 241 characters but never dropped; the
8-hex-digit checksum is present in full; the base segment is empty, and
the result still satisfies the non-empty/≤255 invariant. -/
theorem c4_long_prefix_truncation (s u a q : List Char)
    (h : 241 ≤ q.length) :
    GenerateVolumeName s u a (some q) =
      q.take 241 ++ ['-'] ++ volumeCrcHex a u ++ copySuffix ∧
    (q.take 241).length = 241 ∧
    (volumeCrcHex a u).length = 8 ∧
    0 < (GenerateVolumeName s u a (some q)).length ∧
    (GenerateVolumeName s u a (some q)).length ≤ 255 := by
  have hq : q ≠ [] := by
    intro h0
    rw [h0] at h
    simp at h
  have hseg : volumePrefixSeg (some q) = q.take 241 := by
    unfold volumePrefixSeg
    rw [Option.getD_some, if_neg hq]
    rw [List.take_append_of_le_length h]
  have htl : (q.take 241).length = 241 := by
    simp [List.length_take]
    omega
  have heq : GenerateVolumeName s u a (some q) =
      q.take 241 ++ ['-'] ++ volumeCrcHex a u ++ copySuffix := by
    rw [GenerateVolumeName_eq, hseg, htl]
    simp
  have h5 : copySuffix.length = 5 := rfl
  refine ⟨heq, htl, volumeCrcHex_length a u, ?_, ?_⟩ <;>
    rw [heq] <;>
    simp [List.length_append, htl, volumeCrcHex_length, h5]

/-- C4 witness: a 300-character prefix. -/
theorem c4_witness :
    GenerateVolumeName ['s'] ['u'] ['a'] (some (List.replicate 300 'b')) =
      (List.replicate 300 'b').take 241 ++ ['-'] ++
        volumeCrcHex ['a'] ['u'] ++ copySuffix ∧
    ((List.replicate 300 'b').take 241).length = 241 ∧
    (volumeCrcHex ['a'] ['u']).length = 8 ∧
    0 < (GenerateVolumeName ['s'] ['u'] ['a']
      (some (List.replicate 300 'b'))).length ∧
    (GenerateVolumeName ['s'] ['u'] ['a']
      (some (List.replicate 300 'b'))).length ≤ 255 :=
  c4_long_prefix_truncation ['s'] ['u'] ['a'] _ (by simp)

/-- C10: the empty-string prefix takes the same branch as no prefix at
all: the generated name is identical and carries no prefix segment or
separator, and the name step of `CreateVolumeFromSnapshot` with its
default `''` prefix produces the unprefixed name. -/
theorem c10_empty_prefix (s u a : List Char) :
    GenerateVolumeName s u a (some []) = GenerateVolumeName s u a none ∧
    GenerateVolumeName s u a (some []) =
      s.take 241 ++ ['-'] ++ volumeCrcHex a u ++ copySuffix ∧
    CreateVolumeNameStep s u a [] [] =
      (if regexTagValueMatch (GenerateVolumeName s u a none) then
        Except.ok (GenerateVolumeName s u a none)
      else Except.error (GenerateVolumeName s u a none)) := by
  refine ⟨rfl, ?_, rfl⟩
  rw [GenerateVolumeName_eq]
  have : volumePrefixSeg (some []) = [] := rfl
  rw [this]
  simp

/-! ## Claim theorems for the name check and volume lookup -/

/-- Characterization of the `REGEX_TAG_VALUE` model: `'^.{1,255}$'`
matches exactly the strings that, ignoring at most one trailing newline,
consist of 1 to 255 non-newline characters. -/
theorem regexTagValueMatch_iff (s : List Char) :
    regexTagValueMatch s = true ↔
      ((1 ≤ s.length ∧ s.length ≤ 255 ∧ '\n' ∉ s) ∨
       (∃ t, s = t ++ ['\n'] ∧ 1 ≤ t.length ∧ t.length ≤ 255 ∧
         '\n' ∉ t)) := by
  rcases List.eq_nil_or_concat s with rfl | ⟨t, a, rfl⟩
  · constructor
    · intro h
      simp [regexTagValueMatch, regexTagValueCore] at h
    · rintro (⟨h1, -⟩ | ⟨t, ht, -⟩)
      · simp at h1
      · exact absurd ht.symm (by simp)
  · simp only [List.concat_eq_append]
    by_cases ha : a = '\n'
    · subst ha
      have hcore : regexTagValueCore (t ++ ['\n']) = t := by
        unfold regexTagValueCore
        rw [List.getLast?_concat, if_pos rfl, List.dropLast_concat]
      unfold regexTagValueMatch
      rw [hcore]
      simp only [Bool.and_eq_true, decide_eq_true_eq]
      constructor
      · rintro ⟨⟨h1, h2⟩, h3⟩
        exact Or.inr ⟨t, rfl, h1, h2, h3⟩
      · rintro (⟨-, -, h3⟩ | ⟨t', ht', h1, h2, h3⟩)
        · exact absurd (by simp : '\n' ∈ t ++ ['\n']) h3
        · rw [(List.append_left_inj _).mp ht']
          exact ⟨⟨h1, h2⟩, h3⟩
    · have hcore : regexTagValueCore (t ++ [a]) = t ++ [a] := by
        unfold regexTagValueCore
        rw [List.getLast?_concat, if_neg (by simp [ha])]
      unfold regexTagValueMatch
      rw [hcore]
      simp only [Bool.and_eq_true, decide_eq_true_eq]
      constructor
      · rintro ⟨⟨h1, h2⟩, h3⟩
        exact Or.inl ⟨h1, h2, h3⟩
      · rintro (⟨h1, h2, h3⟩ | ⟨t', ht', -, -, -⟩)
        · exact ⟨⟨h1, h2⟩, h3⟩
        · have hlast := congrArg List.getLast? ht'
          rw [List.getLast?_concat, List.getLast?_concat] at hlast
          simp [ha] at hlast

/-- C3 counterexample: a snapshot display name containing a newline
produces a composed name that is non-empty and within the length limit,
yet the name step still raises: the regex `'^.{1,255}$'` also rejects
interior newlines, so the error condition is not "empty or longer than
255" alone. -/
theorem c3_counterexample :
    CreateVolumeNameStep ['\n'] [] [] [] [] =
      Except.error (ComposedVolumeName ['\n'] [] [] [] []) ∧
    ComposedVolumeName ['\n'] [] [] [] [] ≠ [] ∧
    (ComposedVolumeName ['\n'] [] [] [] []).length ≤ 255 := by
  refine ⟨rfl, by decide, by decide⟩

/-- C3 (amended): the name step of the copy operation raises the defined,
catchable error exactly when the composed name fails Python's
`re.match('^.{1,255}$', name)`: that is, when — after ignoring a single
trailing newline — the name is empty, longer than 255 characters, or
contains a newline.  For any other composed name nothing is raised, and
the step is a pure computation that either returns the composed name or
the error, so no state is created or modified before the raise. -/
theorem c3_name_check_amended (s u a vn px : List Char) :
    ((CreateVolumeNameStep s u a vn px =
        Except.error (ComposedVolumeName s u a vn px)) ↔
      ¬ ((1 ≤ (ComposedVolumeName s u a vn px).length ∧
          (ComposedVolumeName s u a vn px).length ≤ 255 ∧
          '\n' ∉ ComposedVolumeName s u a vn px) ∨
         (∃ t, ComposedVolumeName s u a vn px = t ++ ['\n'] ∧
           1 ≤ t.length ∧ t.length ≤ 255 ∧ '\n' ∉ t))) ∧
    (CreateVolumeNameStep s u a vn px =
        Except.ok (ComposedVolumeName s u a vn px) ∨
      CreateVolumeNameStep s u a vn px =
        Except.error (ComposedVolumeName s u a vn px)) := by
  unfold CreateVolumeNameStep
  rw [← regexTagValueMatch_iff]
  by_cases h : regexTagValueMatch (ComposedVolumeName s u a vn px) = true
  · rw [if_pos h]
    simp [h]
  · rw [if_neg h]
    simp [h]

/-- C9: when the lookup by id fails and the fallback lookup by name also
fails, `GetVolume` raises the error built from the second (by-name)
failure, for every value of the discarded first error; when either lookup
succeeds the found volume is returned, and on an id hit the by-name
lookup result is irrelevant. -/
theorem c9_getVolume_errors {E V : Type} (e1 e2 : E) (v : V)
    (r : Except E V) :
    GetVolume (Except.error e1) (Except.error e2) =
      (Except.error e2 : Except E V) ∧
    GetVolume (Except.ok v) r = Except.ok v ∧
    GetVolume (Except.error e1) (Except.ok v) = Except.ok v :=
  ⟨rfl, rfl, rfl⟩

/-! ## Helper lemmas about the selector builder -/

theorem lookup_keyMap (keys : List (List Char))
    (f : List Char → List Char) (k : List Char) :
    List.lookup k (keys.map (fun x => (x, f x))) =
      if k ∈ keys then some (f k) else none := by
  induction keys with
  | nil => simp [List.lookup]
  | cons x xs ih =>
    by_cases hx : k = x
    · subst hx
      simp [List.lookup]
    · have hbeq : (k == x) = false := by simp [hx]
      simp [List.lookup, hbeq, ih, List.mem_cons, hx]

theorem mem_dedupKeysAux (k : List Char) (l : List (List Char)) :
    ∀ seen, k ∈ dedupKeysAux seen l ↔ k ∈ l ∧ k ∉ seen := by
  induction l with
  | nil =>
    intro seen
    simp [dedupKeysAux]
  | cons x xs ih =>
    intro seen
    unfold dedupKeysAux
    by_cases hx : x ∈ seen
    · rw [if_pos hx, ih seen]
      constructor
      · rintro ⟨h1, h2⟩
        exact ⟨List.mem_cons_of_mem _ h1, h2⟩
      · rintro ⟨h1, h2⟩
        rcases List.mem_cons.mp h1 with rfl | h1
        · exact absurd hx h2
        · exact ⟨h1, h2⟩
    · rw [if_neg hx, List.mem_cons, ih (x :: seen)]
      constructor
      · rintro (rfl | ⟨h1, h2⟩)
        · exact ⟨List.mem_cons_self _ _, hx⟩
        · exact ⟨List.mem_cons_of_mem _ h1,
            fun hk => h2 (List.mem_cons_of_mem _ hk)⟩
      · rintro ⟨h1, h2⟩
        by_cases hkx : k = x
        · exact Or.inl hkx
        · rcases List.mem_cons.mp h1 with rfl | h1
          · exact Or.inl rfl
          · exact Or.inr ⟨h1, by simp [List.mem_cons, hkx, h2]⟩

theorem mem_dedupKeys (k : List Char) (l : List (List Char)) :
    k ∈ dedupKeys l ↔ k ∈ l := by
  unfold dedupKeys
  rw [mem_dedupKeysAux]
  simp

theorem nodup_dedupKeysAux (l : List (List Char)) :
    ∀ seen, (dedupKeysAux seen l).Nodup := by
  induction l with
  | nil =>
    intro seen
    simp [dedupKeysAux]
  | cons x xs ih =>
    intro seen
    unfold dedupKeysAux
    by_cases hx : x ∈ seen
    · rw [if_pos hx]
      exact ih seen
    · rw [if_neg hx, List.nodup_cons]
      refine ⟨fun hmem => ?_, ih (x :: seen)⟩
      have := (mem_dedupKeysAux x xs (x :: seen)).mp hmem
      exact this.2 (List.mem_cons_self _ _)

theorem nodup_dedupKeys (l : List (List Char)) : (dedupKeys l).Nodup :=
  nodup_dedupKeysAux l []

theorem kindFragments_ne_nil (cs : List Component) (k : List Char) :
    kindFragments cs k ≠ [] ↔ k ∈ cs.map componentKeyword := by
  unfold kindFragments
  simp only [Ne, List.map_eq_nil_iff, List.filter_eq_nil_iff,
    decide_eq_true_eq, List.mem_map]
  push_neg
  constructor
  · rintro ⟨c, hc, hk⟩
    exact ⟨c, hc, hk⟩
  · rintro ⟨c, hc, hk⟩
    exact ⟨c, hc, hk⟩

theorem toKeywords_lookup (cs : List Component) (k : List Char) :
    List.lookup k (ToKeywords cs) =
      if kindFragments cs k = [] then none
      else some (joinComma (kindFragments cs k)) := by
  unfold ToKeywords
  rw [lookup_keyMap]
  by_cases h : k ∈ cs.map componentKeyword
  · rw [if_pos ((mem_dedupKeys k _).mpr h),
      if_neg ((kindFragments_ne_nil cs k).mpr h)]
  · have hnil : kindFragments cs k = [] := by
      by_contra hne
      exact h ((kindFragments_ne_nil cs k).mp hne)
    rw [if_neg (fun hc => h ((mem_dedupKeys k _).mp hc)), if_pos hnil]

theorem splitComma_cons (c : Char) (rest : List Char) :
    splitComma (c :: rest) =
      match splitComma rest with
      | [] => [[]]
      | g :: gs => if c = ',' then [] :: g :: gs else (c :: g) :: gs := rfl

theorem splitComma_ne_nil (s : List Char) : splitComma s ≠ [] := by
  induction s with
  | nil => simp [splitComma]
  | cons c rest ih =>
    rw [splitComma_cons]
    rcases h : splitComma rest with - | ⟨g, gs⟩
    · exact absurd h ih
    · by_cases hc : c = ',' <;> simp [hc]

theorem splitComma_no_comma (f : List Char) (hf : ',' ∉ f) :
    splitComma f = [f] := by
  induction f with
  | nil => rfl
  | cons c rest ih =>
    have hc : c ≠ ',' := by
      rintro rfl
      exact hf (List.mem_cons_self _ _)
    have hrest : ',' ∉ rest := fun h => hf (List.mem_cons_of_mem _ h)
    unfold splitComma
    rw [ih hrest]
    simp [hc]

theorem splitComma_append (f rest : List Char) (hf : ',' ∉ f) :
    splitComma (f ++ [','] ++ rest) = f :: splitComma rest := by
  induction f with
  | nil =>
    have hstep : ([] : List Char) ++ [','] ++ rest = ',' :: rest := rfl
    rw [hstep, splitComma_cons]
    rcases h : splitComma rest with - | ⟨g, gs⟩
    · exact absurd h (splitComma_ne_nil rest)
    · simp
  | cons c f' ih =>
    have hc : c ≠ ',' := by
      rintro rfl
      exact hf (List.mem_cons_self _ _)
    have hf' : ',' ∉ f' := fun h => hf (List.mem_cons_of_mem _ h)
    simp only [List.cons_append]
    rw [splitComma_cons, ih hf']
    simp [hc]

theorem splitComma_joinComma (fs : List (List Char)) (hne : fs ≠ [])
    (h : ∀ f ∈ fs, ',' ∉ f) :
    splitComma (joinComma fs) = fs := by
  induction fs with
  | nil => exact absurd rfl hne
  | cons f fs' ih =>
    rcases fs' with - | ⟨f2, fs''⟩
    · exact splitComma_no_comma f (h f (List.mem_cons_self _ _))
    · have hjoin : joinComma (f :: f2 :: fs'') =
        f ++ [','] ++ joinComma (f2 :: fs'') := rfl
      rw [hjoin, splitComma_append _ _ (h f (List.mem_cons_self _ _)),
        ih (by simp) (fun g hg => h g (List.mem_cons_of_mem _ hg))]

theorem splitComma_lookup_toKeywords (cs : List Component) (k s : List Char)
    (h : ∀ c ∈ cs, ',' ∉ componentToString c)
    (hs : List.lookup k (ToKeywords cs) = some s) :
    splitComma s = kindFragments cs k := by
  rw [toKeywords_lookup] at hs
  by_cases hnil : kindFragments cs k = []
  · rw [if_pos hnil] at hs
    exact absurd hs (by simp)
  · rw [if_neg hnil] at hs
    have hjoin : joinComma (kindFragments cs k) = s := by
      injection hs
    rw [← hjoin]
    refine splitComma_joinComma _ hnil ?_
    intro f hf
    rcases List.mem_map.mp hf with ⟨c, hc, rfl⟩
    exact h c (List.mem_filter.mp hc).1

theorem fromDict_eq_map (labels : List (List Char × List Char))
    (hd : (labels.map Prod.fst).Nodup) :
    FromDict labels = labels.map (fun p => Component.Label p.1 p.2) := by
  induction labels with
  | nil => rfl
  | cons p rest ih =>
    obtain ⟨k, v⟩ := p
    rw [List.map_cons, List.nodup_cons] at hd
    show (((k, v) :: rest).map Prod.fst).map
        (fun k' => Component.Label k' ((((k, v) :: rest).lookup k').getD []))
      = _
    rw [List.map_cons, List.map_cons, List.map_cons]
    congr 1
    · simp [List.lookup, beq_self_eq_true]
    · have hstep : ∀ k' ∈ rest.map Prod.fst,
          Component.Label k' ((((k, v) :: rest).lookup k').getD []) =
          Component.Label k' ((rest.lookup k').getD []) := by
        intro k' hk'
        have hne : k' ≠ k := fun hkk => hd.1 (hkk ▸ hk')
        have hbeq : (k' == k) = false := by simp [hne]
        simp [List.lookup, hbeq]
      rw [List.map_congr_left hstep]
      exact ih hd.2

/-! ## Claim theorems for the selector builder -/

/-- C5: `ToKeywords` groups the components by kind preserving each
group's original relative order, joins each group's fragments with `','`,
emits exactly one entry per non-empty group (the keys are free of
duplicates and a key is present iff its group is non-empty), and returns
the empty mapping on the empty component list. -/
theorem c5_toKeywords_grouping (cs : List Component) :
    ToKeywords ([] : List Component) = [] ∧
    (∀ k, List.lookup k (ToKeywords cs) =
      if kindFragments cs k = [] then none
      else some (joinComma (kindFragments cs k))) ∧
    ((ToKeywords cs).map Prod.fst).Nodup ∧
    (∀ k, k ∈ (ToKeywords cs).map Prod.fst ↔ kindFragments cs k ≠ []) := by
  have hkeys : (ToKeywords cs).map Prod.fst =
      dedupKeys (cs.map componentKeyword) := by
    unfold ToKeywords
    rw [List.map_map]
    exact List.map_id _
  refine ⟨rfl, toKeywords_lookup cs, ?_, ?_⟩
  · rw [hkeys]
    exact nodup_dedupKeys _
  · intro k
    rw [hkeys, mem_dedupKeys, ← kindFragments_ne_nil]

/-- C6: the four component types render to exactly the documented
fragments (the `Running` fragment containing an embedded comma), and
`Name`, `Node`, `Running` carry the `field_selector` kind while `Label`
carries the `label_selector` kind. -/
theorem c6_fragment_rendering (n m k v : List Char) :
    componentToString (Component.Name n) = "metadata.name=".toList ++ n ∧
    componentToString (Component.Node m) = "spec.nodeName=".toList ++ m ∧
    componentToString Component.Running =
      "status.phase!=Failed,status.phase!=Succeeded".toList ∧
    ',' ∈ componentToString Component.Running ∧
    componentToString (Component.Label k v) = k ++ "=".toList ++ v ∧
    componentKeyword (Component.Name n) = fieldSelectorKey ∧
    componentKeyword (Component.Node m) = fieldSelectorKey ∧
    componentKeyword Component.Running = fieldSelectorKey ∧
    componentKeyword (Component.Label k v) = labelSelectorKey :=
  ⟨rfl, rfl, rfl, by decide, rfl, rfl, rfl, rfl, rfl⟩

/-- C7 counterexample: the component list `[Running]` satisfies the
claim's comma condition (its only fragment is the documented `Running`
fragment), yet re-splitting the joined `field_selector` string does not
recover the original one-element fragment list — the `Running` fragment
comes back as its two comma-separated conditions. -/
theorem c7_counterexample :
    List.lookup fieldSelectorKey (ToKeywords [Component.Running]) =
      some (componentToString Component.Running) ∧
    splitComma (componentToString Component.Running) ≠
      [componentToString Component.Running] ∧
    splitComma (componentToString Component.Running) =
      ["status.phase!=Failed".toList, "status.phase!=Succeeded".toList] := by
  refine ⟨by decide, by decide, by decide⟩

/-- C7 (amended): for every component list whose rendered fragments
contain no `','` at all (which excludes `Running` components), splitting
each kind's joined `ToKeywords` string on `','` recovers exactly that
kind's original ordered fragment list. -/
theorem c7_split_roundtrip_amended (cs : List Component)
    (h : ∀ c ∈ cs, ',' ∉ componentToString c) :
    (∀ s, List.lookup fieldSelectorKey (ToKeywords cs) = some s →
      splitComma s = kindFragments cs fieldSelectorKey) ∧
    (∀ s, List.lookup labelSelectorKey (ToKeywords cs) = some s →
      splitComma s = kindFragments cs labelSelectorKey) :=
  ⟨fun s hs => splitComma_lookup_toKeywords cs fieldSelectorKey s h hs,
   fun s hs => splitComma_lookup_toKeywords cs labelSelectorKey s h hs⟩

/-- C7 amended witness: a concrete two-component selector. -/
theorem c7_amended_witness :
    splitComma "metadata.name=foo,spec.nodeName=n1".toList =
      kindFragments [Component.Name "foo".toList,
        Component.Node "n1".toList,
        Component.Label "app".toList "web".toList] fieldSelectorKey ∧
    splitComma "app=web".toList =
      kindFragments [Component.Name "foo".toList,
        Component.Node "n1".toList,
        Component.Label "app".toList "web".toList] labelSelectorKey := by
  have h := c7_split_roundtrip_amended
    [Component.Name "foo".toList, Component.Node "n1".toList,
     Component.Label "app".toList "web".toList] (by decide)
  exact ⟨h.1 _ (by decide), h.2 _ (by decide)⟩

/-- C8: for every mapping with distinct keys, `FromDict` builds exactly
one `Label(k, mapping[k])` component per entry in iteration order, so the
keyword map's `label_selector` value joins the `k=v` fragments with `','`
in that order, and there is no `field_selector` entry. -/
theorem c8_fromDict (labels : List (List Char × List Char))
    (hd : (labels.map Prod.fst).Nodup) :
    FromDict labels = labels.map (fun p => Component.Label p.1 p.2) ∧
    List.lookup labelSelectorKey (ToKeywords (FromDict labels)) =
      (if labels = [] then none
       else some (joinComma
         (labels.map (fun p => p.1 ++ "=".toList ++ p.2)))) ∧
    List.lookup fieldSelectorKey (ToKeywords (FromDict labels)) = none := by
  have hmap := fromDict_eq_map labels hd
  have hlabel : kindFragments
      (labels.map fun p => Component.Label p.1 p.2) labelSelectorKey =
      labels.map (fun p => p.1 ++ "=".toList ++ p.2) := by
    unfold kindFragments
    rw [List.filter_map, List.map_map]
    have hp : ((fun c => decide (componentKeyword c = labelSelectorKey)) ∘
        fun p : List Char × List Char => Component.Label p.1 p.2) =
        fun _ => true := by
      funext p
      simp [Function.comp, componentKeyword]
    rw [hp, List.filter_true]
    rfl
  have hfield : kindFragments
      (labels.map fun p => Component.Label p.1 p.2) fieldSelectorKey =
      [] := by
    unfold kindFragments
    rw [List.filter_map]
    have hp : ((fun c => decide (componentKeyword c = fieldSelectorKey)) ∘
        fun p : List Char × List Char => Component.Label p.1 p.2) =
        fun _ => false := by
      funext p
      simp [Function.comp, componentKeyword]
      decide
    rw [hp, List.filter_false]
    rfl
  refine ⟨hmap, ?_, ?_⟩
  · rw [toKeywords_lookup, hmap, hlabel]
    rcases labels with - | ⟨p, rest⟩
    · simp
    · rw [if_neg (by simp), if_neg (by simp)]
  · rw [toKeywords_lookup, hmap, hfield, if_pos rfl]

/-- C8 witness: the specification's example mapping
`{"app": "web", "tier": "frontend"}`. -/
theorem c8_witness :
    FromDict sampleLabels =
      sampleLabels.map (fun p => Component.Label p.1 p.2) ∧
    List.lookup labelSelectorKey (ToKeywords (FromDict sampleLabels)) =
      (if sampleLabels = [] then none
       else some (joinComma
         (sampleLabels.map (fun p => p.1 ++ "=".toList ++ p.2)))) ∧
    List.lookup fieldSelectorKey (ToKeywords (FromDict sampleLabels)) =
      none :=
  c8_fromDict sampleLabels (by decide)

example : crc32Bytes [] = 0 := by decide

example :
    crc32Bytes (utf8Encode "123456789".toList) = 0xCBF43926 := by decide

example : toHex 8 0xCBF43926 = "cbf43926".toList := by decide

example :
    ToKeywords [Component.Name "foo".toList] =
      [(fieldSelectorKey, "metadata.name=foo".toList)] := by decide

example :
    ToKeywords [Component.Name "foo".toList, Component.Running,
        Component.Label "app".toList "web".toList] =
      [(fieldSelectorKey,
        "metadata.name=foo,status.phase!=Failed,status.phase!=Succeeded".toList),
       (labelSelectorKey, "app=web".toList)] := by decide

example : splitComma "a,,bc".toList = ["a".toList, [], "bc".toList] := by
  decide
